import Mathlib

/-!
Verification of the core of `hererocks.py` (version resolution, identity
fingerprinting, incremental install pipeline, git clone strategy, the
subprocess runner and the hand-rolled patch engine) against a shallow
embedding in Lean.  Each definition is translated directly from the
corresponding Python function; machine-level side effects (disk, network,
subprocesses) are made explicit as value passing.
-/

namespace Hererocks

/-- ASCII fragment of the character class `\w` used by Python
`re.sub(r"[^\w]", "_", s)`: letters, digits and the underscore. -/
def pyIsWordChar (c : Char) : Bool := c.isAlphanum || c = '_'

/-- Character-list level of `escape_path`: every non-word character is
replaced by an underscore. -/
def escapeChars (l : List Char) : List Char :=
  l.map (fun c => if pyIsWordChar c then c else '_')

/-- `escape_path` from hererocks.py line 374. -/
def escape_path (s : String) : String := ⟨escapeChars s.data⟩

/-- `important_identifiers` from hererocks.py line 371. -/
def important_identifiers : List String :=
  ["name", "source", "version", "repo", "commit", "location"]

/-- `other_identifiers` from hererocks.py line 372. -/
def other_identifiers : List String :=
  ["target", "compat", "c flags", "patched", "readline"]

/-- The fixed field order used by `hash_identifiers`. -/
def identifier_fields : List String := important_identifiers ++ other_identifiers

/-- A Python identifier dictionary: a partial map from field names to
string values.  An absent key models a key missing from the dict. -/
abbrev Identifiers := String → Option String

/-- `identifiers.get(name, "")`: read a field with default empty string. -/
def idGet (ids : Identifiers) (n : String) : String := (ids n).getD ""

/-- Python `"-".join(...)` at the character-list level. -/
def joinDash : List (List Char) → List Char
  | [] => []
  | [x] => x
  | x :: y :: rest => x ++ '-' :: joinDash (y :: rest)

/-- `hash_identifiers` from hererocks.py line 377: join the escaped values
of the eleven fields, in fixed order, with a dash. -/
def hash_identifiers (ids : Identifiers) : String :=
  ⟨joinDash (identifier_fields.map (fun n => escapeChars (idGet ids n).data))⟩

/-- The build-cache directory for an identity, as computed in `Lua.build`
(hererocks.py line 715): `os.path.join(opts.builds, hash_identifiers(...))`,
written with the posix separator. -/
def cached_build_path (builds : String) (ids : Identifiers) : String :=
  builds ++ "/" ++ hash_identifiers ids

/-- The fields of a `Program` object that `update_identifiers` consults:
its package name, title, version suffix, resolved source kind and the
identifiers computed by `set_identifiers`. -/
structure ProgState where
  name : String
  title : String
  version_suffix : String
  source : String
  identifiers : Identifiers

/-- The manifest mapping from package names to identifier dictionaries
(the `all_identifiers` dict of the Python code). -/
abbrev PkgMap := String → Option Identifiers

/-- Point update of a package map (`all_identifiers[name] = ids`). -/
def setPkg (m : PkgMap) (k : String) (v : Identifiers) : PkgMap :=
  fun n => if n = k then some v else m n

/-- Point removal from a package map (`del identifiers[name]`; removing an
absent key leaves the map unchanged, matching the guarded `del`). -/
def erasePkg (m : PkgMap) (k : String) : PkgMap :=
  fun n => if n = k then none else m n

/-- Result of `Program.update_identifiers`: the returned boolean, the
resulting manifest map, whether `build()` and `install()` ran, and the
messages printed. -/
structure UpdateResult where
  installed : Bool
  all : PkgMap
  built : Bool
  msgs : List String

/-- `Program.update_identifiers` from hererocks.py lines 579 to 592: if the
package is not local, not force-reinstalled, and the stored identifiers
hash equal to the fresh ones, print an already-installed message and
return `False` without touching the map; otherwise build, install, store
the fresh identifiers under the package name and return `True`. -/
def update_identifiers (ignore_installed : Bool) (p : ProgState) (all : PkgMap) :
    UpdateResult :=
  match all p.name with
  | some stored =>
    if ignore_installed = false ∧ p.source ≠ "local" ∧
        hash_identifiers p.identifiers = hash_identifiers stored then
      ⟨false, all, false, [p.title ++ p.version_suffix ++ " already installed"]⟩
    else
      ⟨true, setPkg all p.name p.identifiers, true, []⟩
  | none => ⟨true, setPkg all p.name p.identifiers, true, []⟩

/-- State of `main` while iterating over requested packages: the in-memory
manifest map plus the list of maps handed to `save_installed_identifiers`
so far (one entry per manifest file write). -/
structure MainResult where
  ids : PkgMap
  saves : List PkgMap

/-- One `if X(...).update_identifiers(identifiers): save_installed_identifiers(identifiers)`
block of `main`.  The package name is fixed by the class (`RioLua` has
name `lua`, `LuaJIT` has name `LuaJIT`, `LuaRocks` has name `luarocks`). -/
def runPackage (ig : Bool) (nm : String) (p : ProgState) (st : MainResult) : MainResult :=
  let r := update_identifiers ig { p with name := nm } st.ids
  ⟨r.all, st.saves ++ if r.installed then [r.all] else []⟩

/-- The `opts.lua` block of `main` (hererocks.py lines 1904 to 1911):
delete any `LuaJIT` entry, then install Lua. -/
def luaStage (ig : Bool) (luaP : Option ProgState) (st : MainResult) : MainResult :=
  match luaP with
  | none => st
  | some p => runPackage ig "lua" p ⟨erasePkg st.ids "LuaJIT", st.saves⟩

/-- The `opts.luajit` block of `main` (hererocks.py lines 1913 to 1920):
delete any `lua` entry, then install LuaJIT. -/
def jitStage (ig : Bool) (jitP : Option ProgState) (st : MainResult) : MainResult :=
  match jitP with
  | none => st
  | some p => runPackage ig "LuaJIT" p ⟨erasePkg st.ids "lua", st.saves⟩

/-- The `opts.luarocks` block of `main` (hererocks.py lines 1922 to 1926):
install LuaRocks with no deletions. -/
def rocksStage (ig : Bool) (rocksP : Option ProgState) (st : MainResult) : MainResult :=
  match rocksP with
  | none => st
  | some p => runPackage ig "luarocks" p st

/-- The package-installing portion of `main` (hererocks.py lines 1904 to
1926): the three blocks run in order over the loaded manifest map. -/
def mainInstall (ig : Bool) (luaP jitP rocksP : Option ProgState) (ids0 : PkgMap) :
    MainResult :=
  rocksStage ig rocksP (jitStage ig jitP (luaStage ig luaP ⟨ids0, []⟩))

/-- Mutual-exclusion property of a manifest map: it never stores entries
for both the PUC-Rio interpreter (`lua`) and `LuaJIT` at once. -/
def manifestExclusive (m : PkgMap) : Prop := m "lua" = none ∨ m "LuaJIT" = none

/-- `manifest_version` from hererocks.py line 1577. -/
def manifest_version : Int := 3

/-- The observable states of the manifest file for
`get_installed_identifiers`: missing file, unparsable contents, or a
parsed JSON object with an optional integer `version` field and the
per-package identifier dictionaries (a non-integer `version` value also
compares unequal to the constant and behaves like the mismatch case). -/
inductive ManifestFile where
  | missing
  | invalid
  | json (version : Option Int) (packages : PkgMap)

/-- The empty manifest mapping. -/
def emptyPkgMap : PkgMap := fun _ => none

/-- `get_installed_identifiers` from hererocks.py lines 1579 to 1592:
a missing file, a JSON parse failure, and a `version` field different from
`manifest_version` all yield the empty mapping; only an exact version
match yields the parsed contents. -/
def get_installed_identifiers : ManifestFile → PkgMap
  | ManifestFile.missing => emptyPkgMap
  | ManifestFile.invalid => emptyPkgMap
  | ManifestFile.json v pkgs =>
    if v = some manifest_version then pkgs else emptyPkgMap

/-- Outcome of an output-capturing `run` call: either a returned string or
a fatal exit echoing the captured output. -/
inductive RunOutcome where
  | ret (out : String)
  | fatal (echoed : String)
  deriving DecidableEq

/-- The characters stripped by Python `bytes.strip()` and `str.strip()`. -/
def pyIsSpaceChar (c : Char) : Bool :=
  c = ' ' || c = '\t' || c = '\n' || c = '\r' || c = '\x0b' || c = '\x0c'

/-- Python `strip()`: drop whitespace from both ends. -/
def pyStrip (s : String) : String :=
  ⟨((s.data.dropWhile pyIsSpaceChar).reverse.dropWhile pyIsSpaceChar).reverse⟩

/-- The error-handling decision of `run` with `get_output=True`
(hererocks.py lines 238 to 276), as a function of the exit code of the
child process and its captured output: a non-zero exit with output that
strips to nothing is a soft success returning the empty string, a
non-zero exit with non-empty output echoes the output and exits fatally,
and a zero exit returns the stripped output. -/
def run_capturing (exitcode : Int) (output : String) : RunOutcome :=
  if exitcode ≠ 0 then
    if pyStrip output = "" then RunOutcome.ret ""
    else RunOutcome.fatal output
  else RunOutcome.ret (pyStrip output)

/-- `clever_http_git_whitelist` from hererocks.py line 328. -/
def clever_http_git_whitelist : List String :=
  ["http://github.com/", "https://github.com/",
   "http://bitbucket.com/", "https://bitbucket.com/"]

/-- Python `str.startswith`: the argument is a leading substring. -/
def pyStartsWith (s pre : String) : Bool := pre.data.isPrefixOf s.data

/-- Python lexicographic comparison `(major, minor, tiny) >= (1, 7, 10)`
generalised to an arbitrary right-hand triple. -/
def tupleGe (a b : Nat × Nat × Nat) : Bool :=
  if a.1 ≠ b.1 then decide (b.1 < a.1)
  else if a.2.1 ≠ b.2.1 then decide (b.2.1 < a.2.1)
  else decide (b.2.2 ≤ a.2.2)

/-- `git_branch_accepts_tags` from hererocks.py lines 335 to 350, as a
function of the version triple parsed from `git --version` output
(`none` models output the regex does not match, which yields `False`). -/
def git_branch_accepts_tags : Option (Nat × Nat × Nat) → Bool
  | some v => tupleGe v (1, 7, 10)
  | none => false

/-- Membership in Python `string.hexdigits`. -/
def isHexDigitPy (c : Char) : Bool :=
  c.isDigit || (decide ('a' ≤ c) && decide (c ≤ 'f')) ||
    (decide ('A' ≤ c) && decide (c ≤ 'F'))

/-- `git_clone_command` from hererocks.py lines 352 to 369: returns the
clone command and whether a separate checkout is needed.  Full clones are
used for the cache, for plain http(s) hosts outside the whitelist, and
for refs made of hex digits only; otherwise the clone is shallow, with a
branch argument when the git version accepts tags there. -/
def git_clone_command (repo ref : String) (is_cache : Bool)
    (gitVersion : Option (Nat × Nat × Nat)) : List String × Bool :=
  if is_cache then (["git", "clone"], true)
  else if (pyStartsWith repo "http://" || pyStartsWith repo "https://") &&
      !(clever_http_git_whitelist.any (fun pre => pyStartsWith repo pre)) then
    (["git", "clone"], true)
  else if ref.data.all isHexDigitPy then
    (["git", "clone"], true)
  else if git_branch_accepts_tags gitVersion then
    (["git", "clone", "--depth=1", "--branch=" ++ ref], false)
  else
    (["git", "clone", "--depth=1"], true)

/-- The three shapes a version specifier resolves to in
`Program.__init__`. -/
inductive VersionSpec where
  | release (version : String)
  | gitref (repo : String) (ref : String)
  | localPath (path : String)
  deriving DecidableEq

/-- `self.translations.get(version, version)`: apply the alias table once. -/
def translate (tbl : List (String × String)) (v : String) : String :=
  (tbl.lookup v).getD v

/-- Python `version.partition("@")` restricted to the two parts the code
uses: the text before the first `@` and the text after it. -/
def splitAtFirstAt : List Char → List Char × List Char
  | [] => ([], [])
  | c :: cs =>
    if c = '@' then ([], cs)
    else
      let p := splitAtFirstAt cs
      (c :: p.1, p.2)

/-- Python `version.startswith("@")`. -/
def startsWithAtSign (s : String) : Bool :=
  match s.data with
  | [] => false
  | c :: _ => c = '@'

/-- Python `version[1:]`. -/
def restAfterFirst (s : String) : String := ⟨s.data.drop 1⟩

/-- The classification in `Program.__init__` (hererocks.py lines 424 to
461) after alias translation: a member of the supported set is a release;
otherwise a string containing `@` denotes a git source, with the default
repo and a `master` fallback for the ref only when the string starts with
`@`, and a split on the first `@` otherwise; anything else is treated as
a local path. -/
def classifyVersion (versions : List String) (default_repo : String)
    (version : String) : VersionSpec :=
  if version ∈ versions then VersionSpec.release version
  else if '@' ∈ version.data then
    if startsWithAtSign version then
      VersionSpec.gitref default_repo
        (if restAfterFirst version = "" then "master" else restAfterFirst version)
    else
      VersionSpec.gitref ⟨(splitAtFirstAt version.data).1⟩ ⟨(splitAtFirstAt version.data).2⟩
  else VersionSpec.localPath version

/-- `Program.__init__` version resolution: alias translation followed by
classification. -/
def resolveVersion (tbl : List (String × String)) (versions : List String)
    (default_repo : String) (version0 : String) : VersionSpec :=
  classifyVersion versions default_repo (translate tbl version0)

/-- `RioLua.versions` from hererocks.py lines 859 to 863. -/
def rioLuaVersions : List String :=
  ["5.1", "5.1.1", "5.1.2", "5.1.3", "5.1.4", "5.1.5",
   "5.2.0", "5.2.1", "5.2.2", "5.2.3", "5.2.4",
   "5.3.0", "5.3.1", "5.3.2", "5.3.3", "5.3.4"]

/-- `RioLua.translations` from hererocks.py lines 864 to 872. -/
def rioLuaTranslations : List (String × String) :=
  [("5", "5.3.4"), ("5.1", "5.1.5"), ("5.1.0", "5.1"), ("5.2", "5.2.4"),
   ("5.3", "5.3.4"), ("^", "5.3.4"), ("latest", "5.3.4")]

/-- A parsed hunk (class `Hunk`): a one-based starting line in the original
file, and the tagged lines, each a tag character (space, plus or minus,
the first character of the raw line, which the parser guarantees to
exist) and the rest of the raw line. -/
structure Hunk where
  start_line : Nat
  lines : List (Char × String)

/-- `LineScanner.consume_line` followed by the context check of
`Hunk.add_new_lines`: the scanner position is the zero-based index of the
next source line (the Python one-based `line_number` minus one).  Running
past the end raises `source is too short`; a mismatch with a context or
remove line raises `source is different`. -/
def consumeCheck (old : List String) (pos : Nat) (rest : String) : Except String Nat :=
  if pos < old.length then
    if rest = old.getD pos "" then Except.ok (pos + 1)
    else Except.error "source is different"
  else Except.error "source is too short"

/-- The body of the `for line in self.lines` loop of `Hunk.add_new_lines`:
a space or minus tag consumes and checks one source line, a space or plus
tag appends the line to the new file. -/
def hunkLineStep (old : List String) (st : Nat × List String) (tagged : Char × String) :
    Except String (Nat × List String) := do
  let pos ← if tagged.1 = ' ' ∨ tagged.1 = '-' then consumeCheck old st.1 tagged.2
    else Except.ok st.1
  let acc := if tagged.1 = ' ' ∨ tagged.1 = '+' then st.2 ++ [tagged.2] else st.2
  Except.ok (pos, acc)

/-- The `while` loop at the top of `Hunk.add_new_lines`: copy `count`
untouched source lines through to the new file, failing when the source
runs out. -/
def copyUpTo (old : List String) (pos : Nat) (count : Nat) (acc : List String) :
    Except String (Nat × List String) :=
  match count with
  | 0 => Except.ok (pos, acc)
  | n + 1 =>
    if pos < old.length then copyUpTo old (pos + 1) n (acc ++ [old.getD pos ""])
    else Except.error "source is too short"

/-- `Hunk.add_new_lines` from hererocks.py lines 757 to 771. -/
def Hunk.add_new_lines (h : Hunk) (old : List String) (st : Nat × List String) :
    Except String (Nat × List String) := do
  let st1 ← copyUpTo old st.1 (h.start_line - 1 - st.1) st.2
  h.lines.foldlM (hunkLineStep old) st1

/-- A parsed per-file patch (class `FilePatch`): the target file name and
its hunks. -/
structure FilePatch where
  file_name : String
  hunks : List Hunk

/-- The file system visible to the patch engine: an association list from
file names to file contents split into lines. -/
abbrev FileSystem := List (String × List String)

/-- The message of the `PatchError` raised for a missing file, built
without a literal quote character. -/
def doesNotExistMsg (nm : String) : String :=
  nm ++ " doesn" ++ String.mk [Char.ofNat 39] ++ "t exist"

/-- `FilePatch.prepare_application` from hererocks.py lines 797 to 813:
check the file exists, run every hunk over the source lines, copy the
remaining lines through and add a final empty line.  This phase only
reads the file system. -/
def FilePatch.prepare_application (fp : FilePatch) (fs : FileSystem) :
    Except String (List String) :=
  match fs.lookup fp.file_name with
  | none => Except.error (doesNotExistMsg fp.file_name)
  | some old => do
    let st ← fp.hunks.foldlM (fun st h => h.add_new_lines old st)
      ((0 : Nat), ([] : List String))
    Except.ok (st.2 ++ old.drop st.1 ++ [""])

/-- `FilePatch.apply` (hererocks.py lines 815 to 817): overwrite the file
with the prepared lines. -/
def fsWrite (fs : FileSystem) (nm : String) (lines : List String) : FileSystem :=
  fs.map (fun e => if e.1 = nm then (nm, lines) else e)

/-- A parsed patch (class `Patch`): its per-file patches, in order. -/
structure Patch where
  file_patches : List FilePatch

/-- The first loop of `Patch.apply`: run `prepare_application` over every
file patch in order, stopping at the first `PatchError` and collecting
the prepared lines otherwise. -/
def prepareAll : List FilePatch → FileSystem → Except String (List (String × List String))
  | [], _ => Except.ok []
  | fp :: rest, fs => do
    let nl ← fp.prepare_application fs
    let others ← prepareAll rest fs
    Except.ok ((fp.file_name, nl) :: others)

/-- `Patch.apply` from hererocks.py lines 843 to 851: verify every file
patch first; on a `PatchError` return its message with the file system
untouched, otherwise perform all the writes. -/
def Patch.apply (p : Patch) (fs : FileSystem) : Option String × FileSystem :=
  match prepareAll p.file_patches fs with
  | Except.error e => (some e, fs)
  | Except.ok news => (none, news.foldl (fun acc nl => fsWrite acc nl.1 nl.2) fs)

/-- A two-file patch whose first file verifies and whose second file fails
context verification: used to exhibit atomicity on a concrete input. -/
def demoPatch : Patch :=
  ⟨[⟨"lzio.h", [⟨1, [(' ', "alpha"), ('+', "inserted")]⟩]⟩,
    ⟨"lzio.c", [⟨1, [('-', "expected line")]⟩]⟩]⟩

/-- A concrete file system for the atomicity demonstration. -/
def demoFS : FileSystem :=
  [("lzio.h", ["alpha", "beta"]), ("lzio.c", ["other line", "gamma"])]

/-- The four options the identity-stability property singles out: build
target, compatibility mode, extra C flags and install location, under the
keys used by `Lua.set_identifiers` (hererocks.py lines 626 to 633). -/
def contributing_options : List String := ["target", "compat", "c flags", "location"]

/-- Identifier map whose `c flags` value contains a space. -/
def m1cf : Identifiers := fun n => if n = "c flags" then some "a b" else some "v"

/-- Identifier map whose `c flags` value contains a dot instead. -/
def m2cf : Identifiers := fun n => if n = "c flags" then some "a.b" else some "v"

/-- Identifier map with target `linux`. -/
def mt1demo : Identifiers := fun n => if n = "target" then some "linux" else none

/-- Identifier map with target `macosx`. -/
def mt2demo : Identifiers := fun n => if n = "target" then some "macosx" else none

/-- A concrete identifier dictionary for an installed release Lua. -/
def demoIdsA : Identifiers :=
  fun n => if n = "name" then some "Lua" else if n = "version" then some "5.3.4" else none

/-- A concrete `RioLua` program state matching `demoIdsA`. -/
def pLuaDemo : ProgState := ⟨"lua", "Lua", " 5.3.4", "release", demoIdsA⟩

/-- A manifest map that already stores `demoIdsA` under `lua`. -/
def allLuaDemo : PkgMap := fun n => if n = "lua" then some demoIdsA else none

/-- A concrete package map with one entry, for the manifest gate witness. -/
def demoPkgs : PkgMap := fun n => if n = "lua" then some demoIdsA else none

/-- Identifier map with the `patched` key absent. -/
def mAbsDemo : Identifiers := fun n => if n = "name" then some "Lua" else none

/-- Identifier map with the `patched` key present but empty. -/
def mEmpDemo : Identifiers :=
  fun n => if n = "name" then some "Lua" else if n = "patched" then some "" else none

/-- C1: patch application is atomic.  Whenever `Patch.apply` reports an
error (a context or remove line mismatch, a source running out under a
hunk, or a named file that does not exist), the file system is returned
unmodified, including files earlier in the patch that verified, because
the read-only `prepare_application` pass runs over every `FilePatch`
before any write; and a patch naming a missing file fails up front with
the corresponding message. -/
theorem patch_apply_atomic :
    (∀ (p : Patch) (fs : FileSystem) (e : String),
      (Patch.apply p fs).1 = some e → (Patch.apply p fs).2 = fs) ∧
    (∀ (fp : FilePatch) (rest : List FilePatch) (fs : FileSystem),
      fs.lookup fp.file_name = none →
      Patch.apply ⟨fp :: rest⟩ fs = (some (doesNotExistMsg fp.file_name), fs)) := by
  constructor
  · intro p fs e h
    unfold Patch.apply at h ⊢
    cases hp : prepareAll p.file_patches fs with
    | error e2 => rfl
    | ok news => rw [hp] at h; simp at h
  · intro fp rest fs h
    unfold Patch.apply prepareAll FilePatch.prepare_application
    rw [h]
    rfl

/-- Witness for C1: on a concrete two-file patch whose first file verifies
and whose second file has a mismatching remove line, `Patch.apply` returns
the mismatch message and the file system is unchanged. -/
theorem patch_apply_atomic_witness :
    (Patch.apply demoPatch demoFS).1 = some "source is different" ∧
    (Patch.apply demoPatch demoFS).2 = demoFS :=
  ⟨by decide, patch_apply_atomic.1 demoPatch demoFS "source is different" (by decide)⟩

/-- C4: `git_clone_command` chooses a full clone whenever the ref consists
of hexadecimal digits only, regardless of caching, host whitelist or git
version; and for ref `master` against a whitelisted host, outside the
cache, with a git version at least `1.7.10`, it chooses a shallow
branch-targeted clone and reports that no separate checkout is needed. -/
theorem git_clone_hex_and_branch :
    (∀ (repo ref : String) (is_cache : Bool) (gv : Option (Nat × Nat × Nat)),
      ref.data.all isHexDigitPy = true →
      git_clone_command repo ref is_cache gv = (["git", "clone"], true)) ∧
    (∀ (repo : String) (v : Nat × Nat × Nat),
      clever_http_git_whitelist.any (fun pre => pyStartsWith repo pre) = true →
      tupleGe v (1, 7, 10) = true →
      git_clone_command repo "master" false (some v) =
        (["git", "clone", "--depth=1", "--branch=master"], false)) := by
  constructor
  · intro repo ref is_cache gv h
    simp [git_clone_command, h]
  · intro repo v hw hv
    have hhex : ("master".data.all isHexDigitPy) = false := by decide
    simp [git_clone_command, hw, hhex, git_branch_accepts_tags, hv]

/-- Witness for C4: a hex ref on a non-whitelisted host gets a full clone,
and `master` on github with git `1.7.10` gets the shallow branch clone. -/
theorem git_clone_hex_and_branch_witness :
    git_clone_command "https://example.com/repo" "abcdef0123" false none =
      (["git", "clone"], true) ∧
    git_clone_command "https://github.com/lua/lua" "master" false (some (1, 7, 10)) =
      (["git", "clone", "--depth=1", "--branch=master"], false) :=
  ⟨git_clone_hex_and_branch.1 "https://example.com/repo" "abcdef0123" false none (by decide),
   git_clone_hex_and_branch.2 "https://github.com/lua/lua" (1, 7, 10) (by decide) (by decide)⟩

/-- C6: the manifest loader yields the empty mapping for a missing file,
for unparsable contents, and for any `version` field other than the
constant `3`; it yields the parsed mapping exactly when the version
matches. -/
theorem manifest_version_gate :
    get_installed_identifiers ManifestFile.missing = emptyPkgMap ∧
    get_installed_identifiers ManifestFile.invalid = emptyPkgMap ∧
    (∀ (v : Option Int) (pkgs : PkgMap), v ≠ some manifest_version →
      get_installed_identifiers (ManifestFile.json v pkgs) = emptyPkgMap) ∧
    (∀ pkgs : PkgMap,
      get_installed_identifiers (ManifestFile.json (some manifest_version) pkgs) = pkgs) := by
  refine ⟨rfl, rfl, ?_, ?_⟩
  · intro v pkgs hv
    simp [get_installed_identifiers, hv]
  · intro pkgs
    simp [get_installed_identifiers]

/-- Witness for C6: a manifest whose version field is `2` is treated as
empty. -/
theorem manifest_version_gate_witness :
    get_installed_identifiers (ManifestFile.json (some 2) demoPkgs) = emptyPkgMap :=
  manifest_version_gate.2.2.1 (some 2) demoPkgs (by decide)

/-- C8: for an output-capturing `run`, a non-zero exit whose captured
output strips to nothing returns the empty string as a soft success,
while a non-zero exit with non-empty output is fatal and echoes the
output. -/
theorem run_capture_soft_and_fatal :
    ∀ (code : Int) (out : String), code ≠ 0 →
      (pyStrip out = "" → run_capturing code out = RunOutcome.ret "") ∧
      (pyStrip out ≠ "" → run_capturing code out = RunOutcome.fatal out) := by
  intro code out h
  constructor <;> intro hs <;> simp [run_capturing, h, hs]

/-- Witness for C8: exit code 2 with whitespace output is a soft success,
exit code 2 with a git error message is fatal. -/
theorem run_capture_soft_and_fatal_witness :
    run_capturing 2 "  \n" = RunOutcome.ret "" ∧
    run_capturing 2 "fatal: bad revision" = RunOutcome.fatal "fatal: bad revision" :=
  ⟨(run_capture_soft_and_fatal 2 "  \n" (by decide)).1 (by decide),
   (run_capture_soft_and_fatal 2 "fatal: bad revision" (by decide)).2 (by decide)⟩

/-- Escaped field values never contain the dash used as the join
separator: every escaped character is a word character or an underscore. -/
theorem dash_not_mem_escapeChars (l : List Char) : '-' ∉ escapeChars l := by
  intro hm
  rw [escapeChars, List.mem_map] at hm
  obtain ⟨c, _, hc⟩ := hm
  by_cases hw : pyIsWordChar c
  · rw [if_pos hw] at hc
    subst hc
    exact absurd hw (by decide)
  · rw [if_neg hw] at hc
    exact absurd hc (by decide)

/-- Cancellation around the first dash: two dash-free lists followed by a
dash determine each other. -/
theorem dash_append_cancel :
    ∀ (a b r1 r2 : List Char), '-' ∉ a → '-' ∉ b →
      a ++ '-' :: r1 = b ++ '-' :: r2 → a = b ∧ r1 = r2 := by
  intro a
  induction a with
  | nil =>
    intro b r1 r2 _ hb h
    cases b with
    | nil =>
      simp at h
      exact ⟨rfl, h⟩
    | cons d ds =>
      simp at h
      apply absurd _ hb
      rw [← h.1]
      exact List.mem_cons_self _ _
  | cons c cs ih =>
    intro b r1 r2 ha hb h
    cases b with
    | nil =>
      simp at h
      apply absurd _ ha
      rw [h.1]
      exact List.mem_cons_self _ _
    | cons d ds =>
      simp at h
      obtain ⟨hcd, ht⟩ := h
      have ha2 : '-' ∉ cs := fun hx => ha (List.mem_cons_of_mem _ hx)
      have hb2 : '-' ∉ ds := fun hx => hb (List.mem_cons_of_mem _ hx)
      obtain ⟨h1, h2⟩ := ih ds r1 r2 ha2 hb2 ht
      exact ⟨by rw [hcd, h1], h2⟩

/-- `joinDash` is injective on equal-length lists of dash-free parts. -/
theorem joinDash_inj :
    ∀ (as bs : List (List Char)), as.length = bs.length →
      (∀ a ∈ as, '-' ∉ a) → (∀ b ∈ bs, '-' ∉ b) →
      joinDash as = joinDash bs → as = bs := by
  intro as
  induction as with
  | nil =>
    intro bs hlen _ _ _
    cases bs with
    | nil => rfl
    | cons y ys => simp at hlen
  | cons x xs ih =>
    intro bs hlen hA hB h
    cases bs with
    | nil => simp at hlen
    | cons y ys =>
      cases xs with
      | nil =>
        cases ys with
        | nil =>
          simp only [joinDash] at h
          rw [h]
        | cons y2 ys2 => simp at hlen
      | cons x2 xs2 =>
        cases ys with
        | nil => simp at hlen
        | cons y2 ys2 =>
          rw [show joinDash (x :: x2 :: xs2) = x ++ '-' :: joinDash (x2 :: xs2) from rfl,
              show joinDash (y :: y2 :: ys2) = y ++ '-' :: joinDash (y2 :: ys2) from rfl] at h
          have hx : '-' ∉ x := hA x (List.mem_cons_self _ _)
          have hy : '-' ∉ y := hB y (List.mem_cons_self _ _)
          obtain ⟨h1, h2⟩ := dash_append_cancel x y _ _ hx hy h
          have hA2 : ∀ a ∈ x2 :: xs2, '-' ∉ a := fun a haa => hA a (List.mem_cons_of_mem _ haa)
          have hB2 : ∀ b ∈ y2 :: ys2, '-' ∉ b := fun b hbb => hB b (List.mem_cons_of_mem _ hbb)
          have hlen2 : (x2 :: xs2).length = (y2 :: ys2).length := by simpa using hlen
          rw [h1, ih (y2 :: ys2) hlen2 hA2 hB2 h2]

/-- Fingerprints agree whenever all escaped field values agree. -/
theorem hash_identifiers_congr (m1 m2 : Identifiers)
    (h : ∀ n ∈ identifier_fields,
      escapeChars (idGet m1 n).data = escapeChars (idGet m2 n).data) :
    hash_identifiers m1 = hash_identifiers m2 := by
  unfold hash_identifiers
  exact congrArg (fun l => (⟨joinDash l⟩ : String)) (List.map_congr_left h)

/-- Equal fingerprints force every escaped field value to agree. -/
theorem hash_identifiers_inj_on_fields (m1 m2 : Identifiers)
    (h : hash_identifiers m1 = hash_identifiers m2) :
    ∀ n ∈ identifier_fields,
      escapeChars (idGet m1 n).data = escapeChars (idGet m2 n).data := by
  have hdata : joinDash (identifier_fields.map fun n => escapeChars (idGet m1 n).data) =
      joinDash (identifier_fields.map fun n => escapeChars (idGet m2 n).data) :=
    congrArg String.data h
  have hfree1 : ∀ a ∈ identifier_fields.map fun n => escapeChars (idGet m1 n).data,
      '-' ∉ a := by
    intro a ha
    rw [List.mem_map] at ha
    obtain ⟨n, _, rfl⟩ := ha
    exact dash_not_mem_escapeChars _
  have hfree2 : ∀ a ∈ identifier_fields.map fun n => escapeChars (idGet m2 n).data,
      '-' ∉ a := by
    intro a ha
    rw [List.mem_map] at ha
    obtain ⟨n, _, rfl⟩ := ha
    exact dash_not_mem_escapeChars _
  have hmaps := joinDash_inj _ _ (by simp) hfree1 hfree2 hdata
  exact List.map_eq_map_iff.mp hmaps

/-- C2 (amended): the fingerprint is deterministic in the eleven
identifier fields, and changing exactly one contributing option changes
the fingerprint provided the two values of that option differ after
escaping. -/
theorem identity_fingerprint_determinism_and_sensitivity :
    (∀ m1 m2 : Identifiers,
      (∀ n ∈ identifier_fields, idGet m1 n = idGet m2 n) →
      hash_identifiers m1 = hash_identifiers m2) ∧
    (∀ m1 m2 : Identifiers, ∀ k ∈ contributing_options,
      (∀ n ∈ identifier_fields, n ≠ k → idGet m1 n = idGet m2 n) →
      escape_path (idGet m1 k) ≠ escape_path (idGet m2 k) →
      hash_identifiers m1 ≠ hash_identifiers m2) := by
  constructor
  · intro m1 m2 h
    exact hash_identifiers_congr m1 m2 (fun n hn => by rw [h n hn])
  · intro m1 m2 k hk _hagree hne heq
    have hall := hash_identifiers_inj_on_fields m1 m2 heq
    have hkf : k ∈ identifier_fields := by
      have hsub : contributing_options ⊆ identifier_fields := by decide
      exact hsub hk
    exact hne (congrArg (fun l => (⟨l⟩ : String)) (hall k hkf))

/-- Counterexample for C2 as stated: `c flags` values `a b` and `a.b`
differ, the maps agree on every other key, yet the fingerprints are equal
because both values escape to `a_b`. -/
theorem identity_fingerprint_collision :
    m1cf "c flags" ≠ m2cf "c flags" ∧
    (∀ n, n ≠ "c flags" → m1cf n = m2cf n) ∧
    hash_identifiers m1cf = hash_identifiers m2cf := by
  refine ⟨by decide, ?_, by decide⟩
  intro n hn
  simp [m1cf, m2cf, hn]

/-- Witness for C2 (amended): targets `linux` and `macosx` escape
differently, so the fingerprints differ. -/
theorem identity_fingerprint_determinism_and_sensitivity_witness :
    hash_identifiers mt1demo ≠ hash_identifiers mt2demo :=
  identity_fingerprint_determinism_and_sensitivity.2 mt1demo mt2demo "target"
    (by decide) (by decide) (by decide)

/-- Manifest skip: with matching hashes, a non-local package is reported
as already installed without building. -/
theorem update_skip (p : ProgState) (all : PkgMap) (stored : Identifiers)
    (hs : p.source ≠ "local") (hm : all p.name = some stored)
    (hh : hash_identifiers p.identifiers = hash_identifiers stored) :
    update_identifiers false p all =
      ⟨false, all, false, [p.title ++ p.version_suffix ++ " already installed"]⟩ := by
  unfold update_identifiers
  rw [hm]
  exact if_pos ⟨rfl, hs, hh⟩

/-- C10: `hash_identifiers` reads every field with an empty-string
default, so maps whose fields escape identically hash identically; in
particular a field that is absent and a field present but empty are
indistinguishable, both for the build-cache directory name and for the
already-installed skip of `update_identifiers`. -/
theorem hash_ignores_absent_vs_empty :
    (∀ m1 m2 : Identifiers,
      (∀ n ∈ identifier_fields, escape_path (idGet m1 n) = escape_path (idGet m2 n)) →
      hash_identifiers m1 = hash_identifiers m2) ∧
    (∀ m1 m2 : Identifiers,
      (∀ n ∈ identifier_fields, m1 n = m2 n ∨ (idGet m1 n = "" ∧ idGet m2 n = "")) →
      hash_identifiers m1 = hash_identifiers m2 ∧
      ∀ b, cached_build_path b m1 = cached_build_path b m2) ∧
    (∀ (p : ProgState) (all : PkgMap) (stored : Identifiers),
      p.source ≠ "local" → all p.name = some stored →
      (∀ n ∈ identifier_fields,
        p.identifiers n = stored n ∨ (idGet p.identifiers n = "" ∧ idGet stored n = "")) →
      (update_identifiers false p all).installed = false) := by
  have key : ∀ m1 m2 : Identifiers,
      (∀ n ∈ identifier_fields, m1 n = m2 n ∨ (idGet m1 n = "" ∧ idGet m2 n = "")) →
      hash_identifiers m1 = hash_identifiers m2 := by
    intro m1 m2 h
    apply hash_identifiers_congr
    intro n hn
    rcases h n hn with h1 | ⟨e1, e2⟩
    · unfold idGet
      rw [h1]
    · rw [e1, e2]
  refine ⟨?_, ?_, ?_⟩
  · intro m1 m2 h
    apply hash_identifiers_congr
    intro n hn
    exact congrArg String.data (h n hn)
  · intro m1 m2 h
    refine ⟨key m1 m2 h, fun b => ?_⟩
    unfold cached_build_path
    rw [key m1 m2 h]
  · intro p all stored hs hm h
    rw [update_skip p all stored hs hm (key _ _ h)]

/-- Witness for C10: a map with `patched` absent and a map with `patched`
present but empty give the same fingerprint and the same build-cache
directory. -/
theorem hash_ignores_absent_vs_empty_witness :
    hash_identifiers mAbsDemo = hash_identifiers mEmpDemo ∧
    cached_build_path "/root/builds" mAbsDemo = cached_build_path "/root/builds" mEmpDemo :=
  ⟨(hash_ignores_absent_vs_empty.2.1 mAbsDemo mEmpDemo (by decide)).1,
   (hash_ignores_absent_vs_empty.2.1 mAbsDemo mEmpDemo (by decide)).2 "/root/builds"⟩

/-- C3: installation is idempotent.  A non-local package whose stored
identifiers hash equal to the fresh ones, with `ignore_installed` unset,
prints an already-installed message, runs neither `build` nor `install`,
leaves the manifest map unchanged and returns `False`; consequently a run
whose only requested package is skipped performs no manifest write. -/
theorem install_idempotent_skip :
    (∀ (p : ProgState) (all : PkgMap) (stored : Identifiers),
      p.source ≠ "local" → all p.name = some stored →
      hash_identifiers p.identifiers = hash_identifiers stored →
      update_identifiers false p all =
        ⟨false, all, false, [p.title ++ p.version_suffix ++ " already installed"]⟩) ∧
    (∀ (p : ProgState) (ids0 : PkgMap) (stored : Identifiers),
      p.source ≠ "local" → ids0 "lua" = some stored →
      hash_identifiers p.identifiers = hash_identifiers stored →
      (mainInstall false (some p) none none ids0).saves = []) ∧
    (∀ (p : ProgState) (ids0 : PkgMap) (stored : Identifiers),
      p.source ≠ "local" → ids0 "luarocks" = some stored →
      hash_identifiers p.identifiers = hash_identifiers stored →
      (mainInstall false none none (some p) ids0).saves = []) := by
  refine ⟨update_skip, ?_, ?_⟩
  · intro p ids0 stored hs hm hh
    have hm2 : erasePkg ids0 "LuaJIT" "lua" = some stored := by
      unfold erasePkg
      rw [if_neg (by decide)]
      exact hm
    have hr := update_skip { p with name := "lua" } (erasePkg ids0 "LuaJIT") stored hs hm2 hh
    simp [mainInstall, rocksStage, jitStage, luaStage, runPackage, hr]
  · intro p ids0 stored hs hm hh
    have hr := update_skip { p with name := "luarocks" } ids0 stored hs hm hh
    simp [mainInstall, rocksStage, jitStage, luaStage, runPackage, hr]

/-- Witness for C3: the concrete installed Lua release is skipped with the
already-installed message and the map untouched. -/
theorem install_idempotent_skip_witness :
    update_identifiers false pLuaDemo allLuaDemo =
      ⟨false, allLuaDemo, false,
        [pLuaDemo.title ++ pLuaDemo.version_suffix ++ " already installed"]⟩ :=
  install_idempotent_skip.1 pLuaDemo allLuaDemo demoIdsA (by decide) rfl rfl

/-- `update_identifiers` either leaves the map unchanged or stores the
fresh identifiers under the package name. -/
theorem update_all_cases (ig : Bool) (p : ProgState) (all : PkgMap) :
    (update_identifiers ig p all).all = all ∨
    (update_identifiers ig p all).all = setPkg all p.name p.identifiers := by
  unfold update_identifiers
  split
  · split
    · exact Or.inl rfl
    · exact Or.inr rfl
  · exact Or.inr rfl

/-- `update_identifiers` never touches the entry of another package. -/
theorem update_all_other (ig : Bool) (p : ProgState) (all : PkgMap) (n : String)
    (h : n ≠ p.name) : (update_identifiers ig p all).all n = all n := by
  rcases update_all_cases ig p all with hc | hc
  · rw [hc]
  · rw [hc]
    unfold setPkg
    rw [if_neg h]

/-- A per-package block of `main` never touches another package entry. -/
theorem runPackage_ids_other (ig : Bool) (nm : String) (p : ProgState) (st : MainResult)
    (n : String) (h : n ≠ nm) : (runPackage ig nm p st).ids n = st.ids n :=
  update_all_other ig { p with name := nm } st.ids n h

/-- Every map saved by a per-package block is an earlier save or the
resulting in-memory map. -/
theorem runPackage_saves_cases (ig : Bool) (nm : String) (p : ProgState) (st : MainResult) :
    ∀ m ∈ (runPackage ig nm p st).saves, m ∈ st.saves ∨ m = (runPackage ig nm p st).ids := by
  intro m hm
  have hm2 : m ∈ st.saves ++
      (if (update_identifiers ig { p with name := nm } st.ids).installed then
        [(update_identifiers ig { p with name := nm } st.ids).all] else []) := hm
  rw [List.mem_append] at hm2
  rcases hm2 with h1 | h2
  · exact Or.inl h1
  · right
    by_cases hi : (update_identifiers ig { p with name := nm } st.ids).installed
    · rw [if_pos hi] at h2
      simp at h2
      exact h2
    · rw [if_neg hi] at h2
      simp at h2

/-- Removing a key indeed removes it. -/
theorem erasePkg_self (m : PkgMap) (k : String) : erasePkg m k k = none := by
  unfold erasePkg
  rw [if_pos rfl]

/-- The Lua block of `main` erases `LuaJIT` before installing, so its
result never stores `LuaJIT`, and it preserves exclusivity of saves. -/
theorem luaStage_facts (ig : Bool) (luaP : Option ProgState) (st : MainResult)
    (h0 : manifestExclusive st.ids) (hs : ∀ m ∈ st.saves, manifestExclusive m) :
    manifestExclusive (luaStage ig luaP st).ids ∧
    (∀ m ∈ (luaStage ig luaP st).saves, manifestExclusive m) ∧
    (luaP.isSome = true → (luaStage ig luaP st).ids "LuaJIT" = none) := by
  cases luaP with
  | none => exact ⟨h0, hs, by simp⟩
  | some p =>
    have hend : (luaStage ig (some p) st).ids "LuaJIT" = none := by
      show (runPackage ig "lua" p ⟨erasePkg st.ids "LuaJIT", st.saves⟩).ids "LuaJIT" = none
      rw [runPackage_ids_other ig "lua" p _ "LuaJIT" (by decide)]
      exact erasePkg_self st.ids "LuaJIT"
    refine ⟨Or.inr hend, ?_, fun _ => hend⟩
    intro m hm
    rcases runPackage_saves_cases ig "lua" p ⟨erasePkg st.ids "LuaJIT", st.saves⟩ m hm with h1 | h2
    · exact hs m h1
    · rw [h2]
      exact Or.inr hend

/-- The LuaJIT block of `main` erases `lua` before installing, so its
result never stores `lua`, and it preserves exclusivity of saves. -/
theorem jitStage_facts (ig : Bool) (jitP : Option ProgState) (st : MainResult)
    (h0 : manifestExclusive st.ids) (hs : ∀ m ∈ st.saves, manifestExclusive m) :
    manifestExclusive (jitStage ig jitP st).ids ∧
    (∀ m ∈ (jitStage ig jitP st).saves, manifestExclusive m) ∧
    (jitP.isSome = true → (jitStage ig jitP st).ids "lua" = none) := by
  cases jitP with
  | none => exact ⟨h0, hs, by simp⟩
  | some p =>
    have hend : (jitStage ig (some p) st).ids "lua" = none := by
      show (runPackage ig "LuaJIT" p ⟨erasePkg st.ids "lua", st.saves⟩).ids "lua" = none
      rw [runPackage_ids_other ig "LuaJIT" p _ "lua" (by decide)]
      exact erasePkg_self st.ids "lua"
    refine ⟨Or.inl hend, ?_, fun _ => hend⟩
    intro m hm
    rcases runPackage_saves_cases ig "LuaJIT" p ⟨erasePkg st.ids "lua", st.saves⟩ m hm with h1 | h2
    · exact hs m h1
    · rw [h2]
      exact Or.inl hend

/-- The LuaRocks block never touches the `lua` and `LuaJIT` entries. -/
theorem rocksStage_ids_other (ig : Bool) (rocksP : Option ProgState) (st : MainResult)
    (n : String) (h : n ≠ "luarocks") : (rocksStage ig rocksP st).ids n = st.ids n := by
  cases rocksP with
  | none => rfl
  | some p => exact runPackage_ids_other ig "luarocks" p st n h

/-- The LuaRocks block preserves mutual exclusion of the map and of every
saved manifest. -/
theorem rocksStage_facts (ig : Bool) (rocksP : Option ProgState) (st : MainResult)
    (h0 : manifestExclusive st.ids) (hs : ∀ m ∈ st.saves, manifestExclusive m) :
    manifestExclusive (rocksStage ig rocksP st).ids ∧
    (∀ m ∈ (rocksStage ig rocksP st).saves, manifestExclusive m) := by
  have hex : manifestExclusive (rocksStage ig rocksP st).ids := by
    rcases h0 with h | h
    · exact Or.inl (by rw [rocksStage_ids_other ig rocksP st "lua" (by decide)]; exact h)
    · exact Or.inr (by rw [rocksStage_ids_other ig rocksP st "LuaJIT" (by decide)]; exact h)
  refine ⟨hex, ?_⟩
  cases rocksP with
  | none => exact hs
  | some p =>
    intro m hm
    rcases runPackage_saves_cases ig "luarocks" p st m hm with h1 | h2
    · exact hs m h1
    · rw [h2]
      exact hex

/-- C9: the manifest never stores both interpreters.  Installing Lua first
erases the `LuaJIT` entry and installing LuaJIT first erases the `lua`
entry, so starting from a manifest that does not store both, every map
written by `save_installed_identifiers` during the run stores at most one
of the two; moreover a run that requests Lua without LuaJIT ends without
a `LuaJIT` entry, and a run that requests LuaJIT ends without a `lua`
entry. -/
theorem manifest_mutual_exclusion (ig : Bool) (luaP jitP rocksP : Option ProgState)
    (ids0 : PkgMap) (h0 : manifestExclusive ids0) :
    (∀ m ∈ (mainInstall ig luaP jitP rocksP ids0).saves, manifestExclusive m) ∧
    (luaP.isSome = true → jitP = none →
      (mainInstall ig luaP jitP rocksP ids0).ids "LuaJIT" = none) ∧
    (jitP.isSome = true → (mainInstall ig luaP jitP rocksP ids0).ids "lua" = none) := by
  unfold mainInstall
  have f1 := luaStage_facts ig luaP ⟨ids0, []⟩ h0 (by intro m hm; simp at hm)
  have f2 := jitStage_facts ig jitP (luaStage ig luaP ⟨ids0, []⟩) f1.1 f1.2.1
  have f3 := rocksStage_facts ig rocksP
    (jitStage ig jitP (luaStage ig luaP ⟨ids0, []⟩)) f2.1 f2.2.1
  refine ⟨f3.2, ?_, ?_⟩
  · intro hl hj
    subst hj
    rw [rocksStage_ids_other ig rocksP _ "LuaJIT" (by decide)]
    exact f1.2.2 hl
  · intro hj
    rw [rocksStage_ids_other ig rocksP _ "lua" (by decide)]
    exact f2.2.2 hj

/-- Witness for C9: a run installing only Lua over an empty manifest ends
with no `LuaJIT` entry. -/
theorem manifest_mutual_exclusion_witness :
    (mainInstall false (some pLuaDemo) none none emptyPkgMap).ids "LuaJIT" = none :=
  (manifest_mutual_exclusion false (some pLuaDemo) none none emptyPkgMap
    (Or.inl rfl)).2.1 rfl rfl

/-- C5: the alias table is applied exactly once and a result in the
supported set becomes a release.  In particular `5.3`, `latest` and
`5.3.4` all resolve to the `5.3.4` release; and `5.1.0`, whose alias
`5.1` is itself an alias key, resolves to the `5.1` release rather than
being chained to `5.1.5`. -/
theorem alias_resolution_once (dr : String) :
    (∀ v w, rioLuaTranslations.lookup v = some w → w ∈ rioLuaVersions →
      resolveVersion rioLuaTranslations rioLuaVersions dr v = VersionSpec.release w) ∧
    resolveVersion rioLuaTranslations rioLuaVersions dr "5.3" = VersionSpec.release "5.3.4" ∧
    resolveVersion rioLuaTranslations rioLuaVersions dr "latest" = VersionSpec.release "5.3.4" ∧
    resolveVersion rioLuaTranslations rioLuaVersions dr "5.3.4" = VersionSpec.release "5.3.4" ∧
    resolveVersion rioLuaTranslations rioLuaVersions dr "5.1.0" = VersionSpec.release "5.1" := by
  refine ⟨?_, rfl, rfl, rfl, rfl⟩
  intro v w hl hw
  unfold resolveVersion translate
  rw [hl]
  show classifyVersion rioLuaVersions dr w = VersionSpec.release w
  unfold classifyVersion
  rw [if_pos hw]

/-- Witness for C5: the alias `5.2` resolves to release `5.2.4`. -/
theorem alias_resolution_once_witness :
    resolveVersion rioLuaTranslations rioLuaVersions "https://github.com/lua/lua" "5.2" =
      VersionSpec.release "5.2.4" :=
  (alias_resolution_once "https://github.com/lua/lua").1 "5.2" "5.2.4" (by decide) (by decide)

/-- Counterexample for C7 as stated: a version of the form `<url>@` with a
non-empty repo part and an empty ref part resolves to the empty ref, not
to `master`. -/
theorem version_at_split_counterexample :
    resolveVersion rioLuaTranslations rioLuaVersions "https://github.com/lua/lua" "http://x@" =
      VersionSpec.gitref "http://x" "" ∧
    VersionSpec.gitref "http://x" "" ≠ VersionSpec.gitref "http://x" "master" :=
  ⟨by decide, by decide⟩

/-- C7 (amended): a version containing `@` (after a fixed-point alias
translation, outside the supported set) is split on the first `@`.  When
it starts with `@` the default repo is used and an empty remainder
defaults to `master`; otherwise the parts before and after the first `@`
become repo and ref, and in the `<url>@` form the ref stays empty. -/
theorem version_at_split (tbl : List (String × String)) (vs : List String)
    (dr v : String) (ht : translate tbl v = v) (hv : v ∉ vs) :
    (∀ rest : List Char, v.data = '@' :: rest →
      resolveVersion tbl vs dr v =
        VersionSpec.gitref dr (if rest = [] then "master" else ⟨rest⟩)) ∧
    (∀ (c : Char) (rest : List Char), v.data = c :: rest → c ≠ '@' → '@' ∈ v.data →
      resolveVersion tbl vs dr v =
        VersionSpec.gitref ⟨(splitAtFirstAt v.data).1⟩ ⟨(splitAtFirstAt v.data).2⟩) ∧
    (∀ (a b : List Char), '@' ∉ a → splitAtFirstAt (a ++ '@' :: b) = (a, b)) := by
  refine ⟨?_, ?_, ?_⟩
  · intro rest hdata
    unfold resolveVersion
    rw [ht]
    unfold classifyVersion
    have hat : '@' ∈ v.data := by
      rw [hdata]
      exact List.mem_cons_self _ _
    rw [if_neg hv, if_pos hat]
    have hsw : startsWithAtSign v = true := by
      unfold startsWithAtSign
      rw [hdata]
      rfl
    rw [if_pos hsw]
    have hres : restAfterFirst v = (⟨rest⟩ : String) := by
      unfold restAfterFirst
      rw [hdata]
      rfl
    rw [hres]
    have hiff : (⟨rest⟩ : String) = "" ↔ rest = [] :=
      ⟨fun h => congrArg String.data h, fun h => by rw [h]⟩
    rw [if_congr hiff rfl rfl]
  · intro c rest hdata hc hat
    unfold resolveVersion
    rw [ht]
    unfold classifyVersion
    rw [if_neg hv, if_pos hat]
    have hsw : startsWithAtSign v = false := by
      unfold startsWithAtSign
      rw [hdata]
      exact decide_eq_false hc
    rw [hsw]
    simp
  · intro a
    induction a with
    | nil =>
      intro b _
      simp [splitAtFirstAt]
    | cons c cs ih =>
      intro b ha
      have hc : c ≠ '@' := fun h => ha (by rw [← h]; exact List.mem_cons_self c cs)
      have ha2 : '@' ∉ cs := fun h => ha (List.mem_cons_of_mem _ h)
      show splitAtFirstAt (c :: (cs ++ '@' :: b)) = (c :: cs, b)
      unfold splitAtFirstAt
      rw [if_neg hc]
      simp [ih b ha2]

/-- Witness for C7 (amended): `@` alone resolves to the default repo at
`master`, while `a@b` splits into repo `a` and ref `b`. -/
theorem version_at_split_witness :
    resolveVersion rioLuaTranslations rioLuaVersions "d" "@" =
      VersionSpec.gitref "d" "master" ∧
    resolveVersion rioLuaTranslations rioLuaVersions "d" "a@b" =
      VersionSpec.gitref ⟨(splitAtFirstAt ("a@b").data).1⟩ ⟨(splitAtFirstAt ("a@b").data).2⟩ :=
  ⟨((version_at_split rioLuaTranslations rioLuaVersions "d" "@"
      (by decide) (by decide)).1 [] rfl).trans (by decide),
   (version_at_split rioLuaTranslations rioLuaVersions "d" "a@b"
      (by decide) (by decide)).2.1 'a' ['@', 'b'] rfl (by decide) (by decide)⟩

end Hererocks
